import Mathlib

set_option maxRecDepth 8000

/-! Verification development for the TeleBot repository.

The repository is a Telegram bot in two variants: a monolithic `index.js`
and a modular variant whose handler modules live under `modules/commands`
and `modules/events`.  Pure string-processing functions (`getCommandArgs`,
`parseTransArgs`, `parseSayArgs`, `isValidLanguage`, `formatCommandList`,
`isGroupChat`) are embedded directly from the JavaScript source.  The
loader / dispatch router / callback router of the modular variant is not part
of the provided sources, so it is modelled from the specification where a
claim depends on it; every such definition carries a doc comment starting
with the words Modelled from the spec. -/

namespace TeleBot

/-! Character classes of the JavaScript regular expressions used by the
source.  JS `\s` (also the character set trimmed by `String.prototype.trim`)
is the WhiteSpace plus LineTerminator set; JS `\w` is `[A-Za-z0-9_]`; the
dot of a regex without the `s` flag matches everything except the four
LineTerminator code points.  All sets are expressed on code points. -/

/-- Code points matched by JS `\s` and removed by `String.prototype.trim`. -/
def isJsWs (c : Char) : Bool :=
  let n := c.toNat
  n = 9 || n = 10 || n = 11 || n = 12 || n = 13 || n = 32 || n = 160 ||
    n = 0x1680 || (0x2000 ≤ n && n ≤ 0x200A) || n = 0x2028 || n = 0x2029 ||
    n = 0x202F || n = 0x205F || n = 0x3000 || n = 0xFEFF

/-- Code points matched by JS `\w`, that is `[A-Za-z0-9_]`. -/
def isJsWordChar (c : Char) : Bool :=
  let n := c.toNat
  (0x61 ≤ n && n ≤ 0x7A) || (0x41 ≤ n && n ≤ 0x5A) ||
    (0x30 ≤ n && n ≤ 0x39) || n = 0x5F

/-- The four JS LineTerminator code points, which the regex dot (without
the `s` flag) never matches. -/
def isLineTerm (c : Char) : Bool :=
  let n := c.toNat
  n = 10 || n = 13 || n = 0x2028 || n = 0x2029

/-- Removes the maximal whitespace suffix of a character list. -/
def dropTrailWs : List Char → List Char
  | [] => []
  | c :: rest =>
    match dropTrailWs rest with
    | [] => if isJsWs c then [] else [c]
    | r => c :: r

/-- JS `String.prototype.trim`: removes the maximal whitespace suffix and
then the maximal whitespace prefix. -/
def jsTrim (l : List Char) : List Char :=
  (dropTrailWs l).dropWhile isJsWs

/-- Splits a character list at its last pipe character: returns
`some (pre, post)` with `l = pre ++ pipe :: post` and no pipe in `post`,
or `none` when `l` has no pipe. -/
def splitLastPipe : List Char → Option (List Char × List Char)
  | [] => none
  | c :: rest =>
    match splitLastPipe rest with
    | some (pre, post) => some (c :: pre, post)
    | none => if c = '|' then some ([], rest) else none

/-- Embeds the tail `\s*(\w+)\s*$` of the regex
`^(.*?)\s*\|\s*(\w+)\s*$` from `parseTransArgs` / `parseSayArgs`
(src/index.js lines 327 and 355): the characters after the pipe must be a
whitespace run, a nonempty maximal word-character run (the captured
language group), and a final whitespace run.  Because that tail can
contain no pipe, only the last pipe of the input can head a match, which
is why the lazy search of the regex engine is equivalent to splitting at
the last pipe. -/
def pipeTail (post : List Char) : Option (List Char) :=
  if !((post.dropWhile isJsWs).takeWhile isJsWordChar).isEmpty &&
      ((post.dropWhile isJsWs).dropWhile isJsWordChar).all isJsWs
  then some ((post.dropWhile isJsWs).takeWhile isJsWordChar)
  else none

/-- Embeds the full match of `^(.*?)\s*\|\s*(\w+)\s*$` against a string:
on success returns the two captured groups.  The first, lazy group
`(.*?)` takes the part before the last pipe minus its trailing
whitespace run (consumed by the following `\s*`), and, since the dot
cannot match a LineTerminator, the match fails when that group would
contain one. -/
def matchPipeRegex (l : List Char) : Option (List Char × List Char) :=
  match splitLastPipe l with
  | none => none
  | some (pre, post) =>
    match pipeTail post with
    | none => none
    | some word =>
      if (dropTrailWs pre).all (fun c => !(isLineTerm c))
      then some (dropTrailWs pre, word)
      else none

/-- Result record of `parseTransArgs` / `parseSayArgs`:
`{text: string|null, targetLang: string}`. -/
structure ParsedArgs where
  text : Option String
  targetLang : String
deriving DecidableEq

/-- Embeds `parseTransArgs` (src/index.js lines 323-340): on a pipe match
the text is the trimmed first group (JS `|| null` turns the empty string
into null) and the target language is the trimmed second group; otherwise
the text is the whole trimmed argument and the language defaults to en. -/
def parseTransArgs (args : String) : ParsedArgs :=
  match matchPipeRegex args.data with
  | some (g1, word) =>
    let text := jsTrim g1
    { text := if text.isEmpty then none else some (String.mk text),
      targetLang := String.mk (jsTrim word) }
  | none =>
    let t := jsTrim args.data
    { text := if t.isEmpty then none else some (String.mk t),
      targetLang := "en" }

/-- Embeds `parseSayArgs` (src/index.js lines 351-368), a character for
character duplicate of `parseTransArgs`. -/
def parseSayArgs (args : String) : ParsedArgs :=
  match matchPipeRegex args.data with
  | some (g1, word) =>
    let text := jsTrim g1
    { text := if text.isEmpty then none else some (String.mk text),
      targetLang := String.mk (jsTrim word) }
  | none =>
    let t := jsTrim args.data
    { text := if t.isEmpty then none else some (String.mk t),
      targetLang := "en" }

/-- Follows the words of claim C10: the input has the claimed pipe shape
when it decomposes as prefix, optional whitespace, pipe, optional
whitespace, a single nonempty word token, optional trailing whitespace.
Such a decomposition can only use the last pipe (nothing after the word
token but whitespace), so it is computed by splitting there; no
line-terminator restriction appears in the claim. -/
def specPipeSplit (l : List Char) : Option (List Char × List Char) :=
  match splitLastPipe l with
  | none => none
  | some (pre, post) =>
    match pipeTail post with
    | none => none
    | some word => some (jsTrim pre, word)

/-- Follows the words of claim C10: on pipe shape, text is the trimmed
prefix (null when empty) and targetLang is the word; otherwise text is
the whole trimmed input (null when empty) and targetLang is en. -/
def claimC10Spec (s : String) : ParsedArgs :=
  match specPipeSplit s.data with
  | some (p, word) =>
    { text := if p.isEmpty then none else some (String.mk p),
      targetLang := String.mk word }
  | none =>
    let t := jsTrim s.data
    { text := if t.isEmpty then none else some (String.mk t),
      targetLang := "en" }

/-- The content of claim C10 at a single input string. -/
def claimC10Holds (s : String) : Prop :=
  parseTransArgs s = claimC10Spec s ∧ parseSayArgs s = claimC10Spec s

instance (s : String) : Decidable (claimC10Holds s) := by
  unfold claimC10Holds; infer_instance

/-! Embedding of `getCommandArgs` (src/index.js lines 152-156), which
matches `^\/\w+(?:@\w+)?\s*(.*)` against the message text and returns the
trimmed first group, or the empty string when there is no match. -/

/-- Embeds the optional `(?:@\w+)?` bot-mention group: consumed only when
an at sign is followed by at least one word character. -/
def stripBotMention (l : List Char) : List Char :=
  match l with
  | [] => []
  | c :: r2 =>
    if c = '@' then
      if (r2.takeWhile isJsWordChar).isEmpty then c :: r2
      else r2.drop (r2.takeWhile isJsWordChar).length
    else c :: r2

/-- Embeds `^\/\w+(?:@\w+)?` of the `getCommandArgs` regex: the text must
start with a slash and a nonempty word-character keyword; returns the
characters after the keyword and the optional bot mention, or `none` when
the text is not command shaped. -/
def commandRest (l : List Char) : Option (List Char) :=
  match l with
  | [] => none
  | c :: rest =>
    if c = '/' then
      if (rest.takeWhile isJsWordChar).isEmpty then none
      else some (stripBotMention (rest.drop (rest.takeWhile isJsWordChar).length))
    else none

/-- Embeds `getCommandArgs`: after the keyword, greedy `\s*` consumes the
maximal whitespace run, the group `(.*)` captures up to the next
LineTerminator (the dot does not cross line ends and the regex has no
end anchor), and the group is trimmed.  Non-command texts give the empty
string. -/
def getCommandArgs (text : String) : String :=
  match commandRest text.data with
  | none => ""
  | some a =>
    String.mk (jsTrim ((a.dropWhile isJsWs).takeWhile (fun c => !(isLineTerm c))))

/-- Follows the words of claim C6: for command-shaped text the argument
string is the whole text following the command keyword with surrounding
whitespace trimmed, with no truncation; otherwise it is empty. -/
def claimC6Spec (text : String) : String :=
  match commandRest text.data with
  | none => ""
  | some a => String.mk (jsTrim a)

/-- The content of claim C6 at a single input string. -/
def claimC6Holds (t : String) : Prop :=
  getCommandArgs t = claimC6Spec t

instance (t : String) : Decidable (claimC6Holds t) := by
  unfold claimC6Holds; infer_instance

/-! Embedding of the language validation of src/index.js (the same table
and functions also appear in both variants of the trans module in
src/unnamed/part_000). -/

/-- JS `String.prototype.toLowerCase` on one character, exact on the
ASCII range: for code points below 128 the Unicode ToLowercase mapping
is exactly the A-Z to a-z shift.  Outside ASCII the full JS mapping has
cases this model omits (e.g. U+212A lowercases to k), so the theorems
about `isValidLanguage` quantify only over ASCII strings, where the
model is exact. -/
def jsToLowerChar (c : Char) : Char :=
  if 0x41 ≤ c.toNat && c.toNat ≤ 0x5A then Char.ofNat (c.toNat + 32) else c

/-- Lowercases every character of a string. -/
def jsToLowerCase (s : String) : String :=
  String.mk (s.data.map jsToLowerChar)

/-- The own property names of `Object.prototype` (standard ones plus the
Annex B accessors, as present in Node).  A plain object literal inherits
them, and the JS `in` operator used by `isValidLanguage` walks the
prototype chain, so these names answer true alongside the table keys.
Only the all-lowercase ones (constructor and the dunder proto name) are
reachable through a lowercased input. -/
def OBJECT_PROTOTYPE_KEYS : List String :=
  ["constructor", "hasOwnProperty", "isPrototypeOf", "propertyIsEnumerable",
   "toLocaleString", "toString", "valueOf", "__proto__", "__defineGetter__",
   "__defineSetter__", "__lookupGetter__", "__lookupSetter__"]

/-- Embeds the `SUPPORTED_LANGUAGES` object literal (src/index.js lines
31-135) as the ordered list of its key and value pairs. -/
def SUPPORTED_LANGUAGES : List (String × String) :=
  [("af", "Afrikaans"), ("sq", "Albanian"), ("ar", "Arabic"),
   ("hy", "Armenian"), ("az", "Azerbaijani"), ("eu", "Basque"),
   ("be", "Belarusian"), ("bn", "Bengali"), ("bs", "Bosnian"),
   ("bg", "Bulgarian"), ("ca", "Catalan"), ("ceb", "Cebuano"),
   ("zh", "Chinese (Simplified)"), ("zh-CN", "Chinese (Simplified)"),
   ("zh-TW", "Chinese (Traditional)"), ("hr", "Croatian"),
   ("cs", "Czech"), ("da", "Danish"), ("nl", "Dutch"), ("en", "English"),
   ("eo", "Esperanto"), ("et", "Estonian"), ("fil", "Filipino"),
   ("fi", "Finnish"), ("fr", "French"), ("gl", "Galician"),
   ("ka", "Georgian"), ("de", "German"), ("el", "Greek"),
   ("gu", "Gujarati"), ("ht", "Haitian Creole"), ("ha", "Hausa"),
   ("he", "Hebrew"), ("hi", "Hindi"), ("hmn", "Hmong"),
   ("hu", "Hungarian"), ("is", "Icelandic"), ("ig", "Igbo"),
   ("id", "Indonesian"), ("ga", "Irish"), ("it", "Italian"),
   ("ja", "Japanese"), ("jv", "Javanese"), ("kn", "Kannada"),
   ("kk", "Kazakh"), ("km", "Khmer"), ("ko", "Korean"), ("lo", "Lao"),
   ("la", "Latin"), ("lv", "Latvian"), ("lt", "Lithuanian"),
   ("mk", "Macedonian"), ("mg", "Malagasy"), ("ms", "Malay"),
   ("ml", "Malayalam"), ("mt", "Maltese"), ("mi", "Maori"),
   ("mr", "Marathi"), ("mn", "Mongolian"), ("my", "Myanmar (Burmese)"),
   ("ne", "Nepali"), ("no", "Norwegian"), ("ny", "Nyanja (Chichewa)"),
   ("or", "Odia (Oriya)"), ("ps", "Pashto"), ("fa", "Persian"),
   ("pl", "Polish"), ("pt", "Portuguese"), ("pa", "Punjabi"),
   ("ro", "Romanian"), ("ru", "Russian"), ("sm", "Samoan"),
   ("gd", "Scots Gaelic"), ("sr", "Serbian"), ("st", "Sesotho"),
   ("sn", "Shona"), ("sd", "Sindhi"), ("si", "Sinhala (Sinhalese)"),
   ("sk", "Slovak"), ("sl", "Slovenian"), ("so", "Somali"),
   ("es", "Spanish"), ("su", "Sundanese"), ("sw", "Swahili"),
   ("sv", "Swedish"), ("tl", "Tagalog (Filipino)"), ("tg", "Tajik"),
   ("ta", "Tamil"), ("tt", "Tatar"), ("te", "Telugu"), ("th", "Thai"),
   ("tr", "Turkish"), ("tk", "Turkmen"), ("uk", "Ukrainian"),
   ("ur", "Urdu"), ("ug", "Uyghur"), ("uz", "Uzbek"),
   ("vi", "Vietnamese"), ("cy", "Welsh"), ("xh", "Xhosa"),
   ("yi", "Yiddish"), ("yo", "Yoruba"), ("zu", "Zulu")]

/-- Embeds `isValidLanguage` (src/index.js lines 216-218), which tests
the lowercased code with the case-sensitive `in` operator.  The `in`
operator finds both the own keys of the object literal and the
properties inherited from `Object.prototype`, so the lookup succeeds on
either list. -/
def isValidLanguage (langCode : String) : Bool :=
  (SUPPORTED_LANGUAGES.map Prod.fst).contains (jsToLowerCase langCode) ||
    OBJECT_PROTOTYPE_KEYS.contains (jsToLowerCase langCode)

/-- The content of claim C9 at a single input string: acceptance exactly
when the lowercased input is a key of the table. -/
def claimC9Holds (l : String) : Prop :=
  isValidLanguage l = true ↔ ∃ p ∈ SUPPORTED_LANGUAGES, p.1 = jsToLowerCase l

instance (l : String) : Decidable (claimC9Holds l) := by
  unfold claimC9Holds; infer_instance

/-! Embedding of the chat classification and of the help listing. -/

/-- Embeds `isGroupChat` (src/index.js lines 142-145 and the identical
copies in help.js, uid.js, setgroupname.js), applied to the chat type
string of the context. -/
def isGroupChat (chatType : String) : Bool :=
  chatType == "group" || chatType == "supergroup"

/-- The permission field of a command module config: the source uses the
string user for available everywhere and group for restricted to group
chats (spec section 3 makes it this two-valued enumeration). -/
inductive Permission where
  | user
  | group
deriving DecidableEq, BEq

/-- One entry of a module `actions` map: the raw key string (a literal
callback identifier or a slash-delimited pattern) together with the
model of the bound handler: its identity, whether it explicitly
acknowledges the callback during its run, and whether it throws. -/
structure CallbackEntry where
  key : String
  cbId : Nat
  acks : Bool
  throws : Bool
deriving DecidableEq

/-- A command module as discovered by the loader: the config fields
(name, description, permission) and the presence of the optional
callbacks, from the module files under src/modules/commands; the
`onStartReplies` and `onStartThrows` fields model the observable
behavior of the `onStart` handler for the one dispatched update. -/
structure CommandModule where
  name : String
  description : String
  permission : Permission
  hasOnStart : Bool
  hasOnChat : Bool
  actions : List CallbackEntry
  id : Nat
  onStartReplies : List String
  onStartThrows : Bool
deriving DecidableEq

/-- An event module as discovered by the loader: config fields from the
files of src/unnamed/part_003, plus the modelled handler behavior. -/
structure EventModule where
  name : String
  description : String
  eventType : List String
  id : Nat
  replies : List String
  throws : Bool
deriving DecidableEq

/-- One registered per-message middleware stage (a module that exports
`onChat`); `throws` models whether the stage raises on this update. -/
structure MwStage where
  stageName : String
  throws : Bool
deriving DecidableEq

/-- One inbound update, after the transport-level classification: a
command candidate with extracted keyword and argument string, an event
candidate with its platform tag, or a callback interaction with its
callback data. -/
inductive Update where
  | command (keyword : String) (args : String) (chatType : String)
  | event (tag : String) (chatType : String)
  | callback (data : String)
deriving DecidableEq

/-- Observable events of one dispatched update, in order: middleware
stage runs and caught stage errors, handler invocations and caught
handler errors, outbound replies, and callback acknowledgments. -/
inductive Ev where
  | midRun (i : Nat)
  | midErr (i : Nat)
  | cmdRun (id : Nat)
  | cmdErr (id : Nat)
  | evtRun (id : Nat)
  | evtErr (id : Nat)
  | cbRun (id : Nat)
  | cbErr (id : Nat)
  | reply (msg : String)
  | ack
deriving DecidableEq

/-- Indices of the middleware stages that ran, in trace order. -/
def midRunsOf (t : List Ev) : List Nat :=
  t.filterMap fun e => match e with | Ev.midRun i => some i | _ => none

/-- Identities of all command, event and callback handlers that were
invoked, in trace order. -/
def handlerRunsOf (t : List Ev) : List Nat :=
  t.filterMap fun e =>
    match e with
    | Ev.cmdRun i => some i
    | Ev.evtRun i => some i
    | Ev.cbRun i => some i
    | _ => none

/-- Identities of the event handlers that were invoked, in trace order. -/
def evtRunsOf (t : List Ev) : List Nat :=
  t.filterMap fun e => match e with | Ev.evtRun i => some i | _ => none

/-- Outbound replies of the trace, in order. -/
def repliesOf (t : List Ev) : List String :=
  t.filterMap fun e => match e with | Ev.reply m => some m | _ => none

/-- Number of callback acknowledgments in the trace. -/
def countAcks (t : List Ev) : Nat :=
  t.countP fun e => match e with | Ev.ack => true | _ => false

/-- The list `[s, s+1, ..., s+n-1]`. -/
def natRange (s n : Nat) : List Nat :=
  match n with
  | 0 => []
  | k + 1 => s :: natRange (s + 1) k

/-- Concatenation of the traces produced for each element of a list. -/
def flatTrace (f : α → List Ev) : List α → List Ev
  | [] => []
  | x :: xs => f x ++ flatTrace f xs

/-! Modelled dispatch core.  The loader and router of the modular variant
(its index.js) is not among the provided sources; the definitions below
are therefore modelled from the specification, sections 4.3 to 4.6. -/

/-- Modelled from the spec (section 4.3, loader index.js missing from
the sources): `register(module)` inserts by name with no collision check
and no error; the registry keeps registration order. -/
def register (r : List CommandModule) (m : CommandModule) : List CommandModule :=
  r ++ [m]

/-- Registers a whole discovery sequence in order, starting from the
empty registry. -/
def registerAll (ms : List CommandModule) : List CommandModule :=
  ms.foldl register []

/-- Modelled from the spec (section 4.3, loader index.js missing from
the sources): `resolve(name)` returns the module registered under an
exact name match, later registrations shadowing earlier ones, or a not
found signal. -/
def resolve : List CommandModule → String → Option CommandModule
  | [], _ => none
  | m :: rest, n =>
    match resolve rest n with
    | some m2 => some m2
    | none => if m.name == n then some m else none

/-- Modelled from the spec (section 4.4, loader index.js missing from
the sources): `register` appends the event module, and `handlersFor`
returns, in registration order, every module whose declared tag list
contains the tag. -/
def registerEvent (r : List EventModule) (m : EventModule) : List EventModule :=
  r ++ [m]

/-- Ordered list of the event modules subscribed to a tag. -/
def handlersFor (r : List EventModule) (tag : String) : List EventModule :=
  r.filter fun m => m.eventType.contains tag

/-- Modelled from the spec (section 4.5, loader index.js missing from
the sources): every registered `onChat` stage runs in registration
order for every update; a throwing stage is caught and logged and the
chain continues with the next stage. -/
def runMw : List MwStage → Nat → List Ev
  | [], _ => []
  | st :: rest, i =>
    (Ev.midRun i :: if st.throws then [Ev.midErr i] else []) ++ runMw rest (i + 1)

/-- Modelled from the spec (section 4.5): invoking a command handler
records the invocation, its replies, and a caught terminal error when
the handler throws; nothing is retried. -/
def invokeCmd (m : CommandModule) : List Ev :=
  Ev.cmdRun m.id ::
    (m.onStartReplies.map Ev.reply ++ if m.onStartThrows then [Ev.cmdErr m.id] else [])

/-- Modelled from the spec (sections 4.5 and 4.4): invoking one event
handler; a throwing handler is caught and does not stop the fan-out. -/
def invokeEvt (m : EventModule) : List Ev :=
  Ev.evtRun m.id ::
    (m.replies.map Ev.reply ++ if m.throws then [Ev.evtErr m.id] else [])

/-- Modelled from the spec (section 4.6): running a matched callback
action handler; the router acknowledges afterwards exactly when the
handler did not already acknowledge, whether or not it threw. -/
def runCbEntry (e : CallbackEntry) : List Ev :=
  Ev.cbRun e.cbId ::
    ((if e.acks then [Ev.ack] else []) ++
      (if e.throws then [Ev.cbErr e.cbId] else []) ++
      (if e.acks then [] else [Ev.ack]))

/-- Modelled from the spec (section 4.6, loader index.js missing from
the sources): callback routing scans the union of the `actions` maps in
registration order, first match wins; with no match the interaction is
acknowledged with a neutral no-op.  The pattern test is a parameter
`matcher`, covering both literal keys and slash-delimited patterns. -/
def routeCallback (matcher : String → String → Bool)
    (entries : List CallbackEntry) (data : String) : List Ev :=
  match entries.find? (fun e => matcher e.key data) with
  | none => [Ev.ack]
  | some e => runCbEntry e

/-- Union of the `actions` maps of all registered command modules, in
registration order and insertion order within a module. -/
def collectActions (creg : List CommandModule) : List CallbackEntry :=
  creg.foldr (fun m acc => m.actions ++ acc) []

/-- Modelled from the spec (section 4.5 Routed state, loader index.js
missing from the sources): a command candidate resolves its keyword,
silently dropping unknown names, middleware-only modules, and
group-restricted modules outside group-like chats; an event candidate
fans out to every subscribed handler; a callback goes to the callback
router. -/
def routeUpdate (matcher : String → String → Bool) (creg : List CommandModule)
    (ereg : List EventModule) : Update → List Ev
  | Update.command kw _ ct =>
    match resolve creg kw with
    | none => []
    | some m =>
      if m.hasOnStart = false then []
      else if m.permission = Permission.group ∧ isGroupChat ct = false then []
      else invokeCmd m
  | Update.event tag _ => flatTrace invokeEvt (handlersFor ereg tag)
  | Update.callback data => routeCallback matcher (collectActions creg) data

/-- Modelled from the spec (section 4.5, loader index.js missing from
the sources): one inbound update runs the whole middleware chain and is
then routed; terminal states are per update, with no retry. -/
def dispatch (matcher : String → String → Bool) (stages : List MwStage)
    (creg : List CommandModule) (ereg : List EventModule) (u : Update) : List Ev :=
  runMw stages 0 ++ routeUpdate matcher creg ereg u

/-! Embedding of the help listing (src/modules/commands/help.js). -/

/-- Embeds the default branch of the filter in `formatCommandList`
(help.js lines 30-36): a group-permission command is kept only in group
chats, anything else is kept. -/
def helpVisibleCommands (commands : List CommandModule) (isGroup : Bool) :
    List CommandModule :=
  commands.filter fun cmd =>
    match cmd.permission with
    | Permission.group => isGroup
    | _ => true

/-- Embeds `formatCommandList` (help.js lines 23-46): selects commands by
the requested filter, then renders one line per command with a
permission icon, or a placeholder sentence when nothing is left. -/
def formatCommandList (commands : List CommandModule) (filt : String)
    (isGroup : Bool) : String :=
  let filtered :=
    if filt == "user" then commands.filter (fun cmd => cmd.permission == Permission.user)
    else if filt == "group" then commands.filter (fun cmd => cmd.permission == Permission.group)
    else helpVisibleCommands commands isGroup
  if filtered.isEmpty then "_No commands available for this filter._"
  else
    String.intercalate "\n"
      (filtered.map fun cmd =>
        (if cmd.permission == Permission.group then "👥" else "👤") ++
          " /" ++ cmd.name ++ " - " ++ cmd.description)

/-- Follows the words of the spec (section 4.3 `filterFor`): the
subsequence of the registry listing visible in a chat kind; a module
with permission restricted to group chats is visible only when the chat
kind is group-like, a module with permission everywhere always. -/
def filterFor (commands : List CommandModule) (chatType : String) :
    List CommandModule :=
  commands.filter fun m =>
    match m.permission with
    | Permission.group => isGroupChat chatType
    | Permission.user => true

/-! Concrete modules embedded from the source files, used by witnesses. -/

/-- Config of src/modules/commands/setgroupname.js; the modelled handler
behavior is the reply its `onStart` sends when invoked in a private
chat. -/
def setgroupnameModule : CommandModule :=
  { name := "setgroupname",
    description := "Set group name (admin only)",
    permission := Permission.group,
    hasOnStart := true,
    hasOnChat := false,
    actions := [],
    id := 3,
    onStartReplies := ["This command can only be used in group or supergroup chats."],
    onStartThrows := false }

/-- Config of the first trans variant of src/unnamed/part_000 (lines
249-253), the variant with the two pattern-keyed callback actions. -/
def transModuleV1 : CommandModule :=
  { name := "trans",
    description := "Translate text to another language",
    permission := Permission.user,
    hasOnStart := true,
    hasOnChat := false,
    actions :=
      [{ key := "/trans_(en|ko|ja|zh|es|fr|de|ru|ar|hi|pt|vi)/", cbId := 11,
         acks := false, throws := false },
       { key := "/trans_quick_(en|ko|ja|zh)/", cbId := 12,
         acks := false, throws := false }],
    id := 1,
    onStartReplies := [],
    onStartThrows := false }

/-- Config of the second trans variant of src/unnamed/part_000 (lines
739-743), the variant without callback actions. -/
def transModuleV2 : CommandModule :=
  { name := "trans",
    description := "Translate text to another language",
    permission := Permission.user,
    hasOnStart := true,
    hasOnChat := false,
    actions := [],
    id := 2,
    onStartReplies := [],
    onStartThrows := false }

/-- Config of the join event module (src/unnamed/part_003 lines 36-40). -/
def joinModule : EventModule :=
  { name := "join",
    description := "Welcomes new members to the group",
    eventType := ["new_chat_members"],
    id := 10,
    replies := [],
    throws := false }

/-- Config of the leave event module (src/unnamed/part_003 lines
116-120). -/
def leaveModule : EventModule :=
  { name := "leave",
    description := "Says goodbye to members leaving the group",
    eventType := ["left_chat_member"],
    id := 11,
    replies := [],
    throws := false }

/-- The logger module (src/modules/commands/logger.js) as the one
middleware stage of the source system; its `onChat` catches its own
errors, so a non-throwing stage is the faithful instance. -/
def loggerStage : MwStage :=
  { stageName := "logger", throws := false }

/-- Two event modules subscribed to the same tag, as in the photo
scenario of the spec (section 8, end-to-end scenario C). -/
def photoModuleA : EventModule :=
  { name := "photoA", description := "first photo handler",
    eventType := ["photo"], id := 20, replies := [], throws := false }

/-- Second photo module of the scenario; this one throws, exercising the
no-short-circuit rule. -/
def photoModuleB : EventModule :=
  { name := "photoB", description := "second photo handler",
    eventType := ["photo"], id := 21, replies := [], throws := true }

/-- Literal string equality as a callback key matcher, used by
witnesses. -/
def litMatcher (key data : String) : Bool :=
  key == data

/-! Helper lemmas about the whitespace trimming layer. -/

theorem dropWhileWs_idem (l : List Char) :
    (l.dropWhile isJsWs).dropWhile isJsWs = l.dropWhile isJsWs := by
  induction l with
  | nil => rfl
  | cons c rest ih =>
    by_cases h : isJsWs c
    · simp [List.dropWhile_cons, h, ih]
    · simp [List.dropWhile_cons, h]

theorem dropTrailWs_idem (l : List Char) :
    dropTrailWs (dropTrailWs l) = dropTrailWs l := by
  induction l with
  | nil => rfl
  | cons c rest ih =>
    cases h : dropTrailWs rest with
    | nil =>
      by_cases hc : isJsWs c
      · simp [dropTrailWs, h, hc]
      · simp [dropTrailWs, h, hc]
    | cons x xs =>
      rw [h] at ih
      have e1 : dropTrailWs (c :: rest) = c :: x :: xs := by
        rw [dropTrailWs, h]
      have e2 : dropTrailWs (c :: x :: xs) = c :: x :: xs := by
        rw [dropTrailWs, ih]
      rw [e1, e2]

theorem dropTrailWs_dropWhileWs (l : List Char) :
    dropTrailWs (l.dropWhile isJsWs) = (dropTrailWs l).dropWhile isJsWs := by
  induction l with
  | nil => rfl
  | cons c rest ih =>
    by_cases hc : isJsWs c
    · cases h : dropTrailWs rest with
      | nil => simp [List.dropWhile_cons, hc, ih, h, dropTrailWs]
      | cons x xs => simp [List.dropWhile_cons, hc, ih, h, dropTrailWs]
    · cases h : dropTrailWs rest with
      | nil => simp [List.dropWhile_cons, hc, dropTrailWs, h]
      | cons x xs => simp [List.dropWhile_cons, hc, dropTrailWs, h]

theorem jsTrim_dropTrailWs (l : List Char) : jsTrim (dropTrailWs l) = jsTrim l := by
  unfold jsTrim
  rw [dropTrailWs_idem]

theorem jsTrim_dropWhileWs (l : List Char) :
    jsTrim (l.dropWhile isJsWs) = jsTrim l := by
  unfold jsTrim
  rw [dropTrailWs_dropWhileWs, dropWhileWs_idem]

theorem mem_dropTrailWs {a : Char} {l : List Char} (h : a ∈ dropTrailWs l) :
    a ∈ l := by
  induction l with
  | nil => simp [dropTrailWs] at h
  | cons c rest ih =>
    cases hr : dropTrailWs rest with
    | nil =>
      rw [dropTrailWs, hr] at h
      by_cases hc : isJsWs c
      · simp [hc] at h
      · simp [hc] at h
        simp [h]
    | cons x xs =>
      rw [dropTrailWs, hr] at h
      rcases List.mem_cons.mp h with h1 | h2
      · simp [h1]
      · exact List.mem_cons_of_mem c (ih (hr ▸ h2))

theorem takeWhile_of_all {α : Type} {p : α → Bool} {l : List α}
    (h : ∀ a ∈ l, p a = true) : l.takeWhile p = l := by
  induction l with
  | nil => rfl
  | cons c rest ih =>
    rw [List.takeWhile_cons, h c (List.mem_cons_self c rest)]
    simp [ih fun a ha => h a (List.mem_cons_of_mem c ha)]

theorem dropTrailWs_of_noWs {l : List Char} (h : ∀ a ∈ l, isJsWs a = false) :
    dropTrailWs l = l := by
  induction l with
  | nil => rfl
  | cons c rest ih =>
    have hr : dropTrailWs rest = rest := ih fun a ha => h a (List.mem_cons_of_mem c ha)
    have hc : isJsWs c = false := h c (List.mem_cons_self c rest)
    cases rest with
    | nil => simp [dropTrailWs, hc]
    | cons x xs => rw [dropTrailWs, hr]

theorem jsTrim_of_noWs {l : List Char} (h : ∀ a ∈ l, isJsWs a = false) :
    jsTrim l = l := by
  unfold jsTrim
  rw [dropTrailWs_of_noWs h]
  cases l with
  | nil => rfl
  | cons c rest => simp [List.dropWhile_cons, h c (List.mem_cons_self c rest)]

theorem wordChar_not_ws {c : Char} (h : isJsWordChar c = true) :
    isJsWs c = false := by
  simp only [isJsWordChar, Bool.or_eq_true, Bool.and_eq_true, decide_eq_true_eq] at h
  simp only [isJsWs, Bool.or_eq_false_iff, Bool.and_eq_false_iff,
    decide_eq_false_iff_not]
  omega

theorem pipeTail_word {post word : List Char} (h : pipeTail post = some word) :
    ∀ a ∈ word, isJsWordChar a = true := by
  unfold pipeTail at h
  split at h
  · cases h
    intro a ha
    exact List.mem_takeWhile_imp ha
  · cases h

theorem splitLastPipe_eq :
    ∀ (l pre post : List Char), splitLastPipe l = some (pre, post) →
      l = pre ++ '|' :: post := by
  intro l
  induction l with
  | nil => intro pre post h; simp [splitLastPipe] at h
  | cons c rest ih =>
    intro pre post h
    rw [splitLastPipe] at h
    cases hr : splitLastPipe rest with
    | some pp =>
      obtain ⟨b, a⟩ := pp
      rw [hr] at h
      simp only [Option.some.injEq, Prod.mk.injEq] at h
      obtain ⟨h1, h2⟩ := h
      rw [← h1, ← h2, ih b a hr]
      rfl
    | none =>
      rw [hr] at h
      by_cases hc : c = '|'
      · rw [if_pos hc] at h
        simp only [Option.some.injEq, Prod.mk.injEq] at h
        obtain ⟨h1, h2⟩ := h
        rw [← h1, ← h2, hc]
        rfl
      · rw [if_neg hc] at h
        cases h

/-! Helper lemmas about the trace extractors and the modelled router. -/

theorem natRange_mem_le : ∀ (n s m : Nat), m ∈ natRange s n → s ≤ m := by
  intro n
  induction n with
  | zero => intro s m h; simp [natRange] at h
  | succ k ih =>
    intro s m h
    rcases List.mem_cons.mp h with h1 | h2
    · omega
    · have := ih (s + 1) m h2
      omega

theorem natRange_nodup : ∀ (n s : Nat), (natRange s n).Nodup := by
  intro n
  induction n with
  | zero => intro s; simp [natRange]
  | succ k ih =>
    intro s
    rw [natRange, List.nodup_cons]
    refine ⟨fun hmem => ?_, ih (s + 1)⟩
    have := natRange_mem_le k (s + 1) s hmem
    omega

theorem midRunsOf_append (a b : List Ev) :
    midRunsOf (a ++ b) = midRunsOf a ++ midRunsOf b :=
  List.filterMap_append a b _

theorem handlerRunsOf_append (a b : List Ev) :
    handlerRunsOf (a ++ b) = handlerRunsOf a ++ handlerRunsOf b :=
  List.filterMap_append a b _

theorem evtRunsOf_append (a b : List Ev) :
    evtRunsOf (a ++ b) = evtRunsOf a ++ evtRunsOf b :=
  List.filterMap_append a b _

theorem repliesOf_append (a b : List Ev) :
    repliesOf (a ++ b) = repliesOf a ++ repliesOf b :=
  List.filterMap_append a b _

theorem countAcks_append (a b : List Ev) :
    countAcks (a ++ b) = countAcks a + countAcks b :=
  List.countP_append _ _ _

theorem midRunsOf_runMw : ∀ (stages : List MwStage) (i : Nat),
    midRunsOf (runMw stages i) = natRange i stages.length := by
  intro stages
  induction stages with
  | nil => intro i; rfl
  | cons st rest ih =>
    intro i
    obtain ⟨nm, thr⟩ := st
    rw [runMw, midRunsOf_append, ih (i + 1)]
    cases thr <;> rfl

theorem handlerRunsOf_runMw : ∀ (stages : List MwStage) (i : Nat),
    handlerRunsOf (runMw stages i) = [] := by
  intro stages
  induction stages with
  | nil => intro i; rfl
  | cons st rest ih =>
    intro i
    obtain ⟨nm, thr⟩ := st
    rw [runMw, handlerRunsOf_append, ih (i + 1)]
    cases thr <;> rfl

theorem evtRunsOf_runMw : ∀ (stages : List MwStage) (i : Nat),
    evtRunsOf (runMw stages i) = [] := by
  intro stages
  induction stages with
  | nil => intro i; rfl
  | cons st rest ih =>
    intro i
    obtain ⟨nm, thr⟩ := st
    rw [runMw, evtRunsOf_append, ih (i + 1)]
    cases thr <;> rfl

theorem repliesOf_runMw : ∀ (stages : List MwStage) (i : Nat),
    repliesOf (runMw stages i) = [] := by
  intro stages
  induction stages with
  | nil => intro i; rfl
  | cons st rest ih =>
    intro i
    obtain ⟨nm, thr⟩ := st
    rw [runMw, repliesOf_append, ih (i + 1)]
    cases thr <;> rfl

theorem countAcks_runMw : ∀ (stages : List MwStage) (i : Nat),
    countAcks (runMw stages i) = 0 := by
  intro stages
  induction stages with
  | nil => intro i; rfl
  | cons st rest ih =>
    intro i
    obtain ⟨nm, thr⟩ := st
    rw [runMw, countAcks_append, ih (i + 1)]
    cases thr <;> rfl

theorem midRunsOf_map_reply (l : List String) :
    midRunsOf (l.map Ev.reply) = [] := by
  induction l with
  | nil => rfl
  | cons m rest ih => exact ih

theorem handlerRunsOf_map_reply (l : List String) :
    handlerRunsOf (l.map Ev.reply) = [] := by
  induction l with
  | nil => rfl
  | cons m rest ih => exact ih

theorem evtRunsOf_map_reply (l : List String) :
    evtRunsOf (l.map Ev.reply) = [] := by
  induction l with
  | nil => rfl
  | cons m rest ih => exact ih

theorem handlerRunsOf_invokeCmd (m : CommandModule) :
    handlerRunsOf (invokeCmd m) = [m.id] := by
  by_cases h : m.onStartThrows <;>
    simp [invokeCmd, h, handlerRunsOf, List.filterMap_cons, List.filterMap_append,
      handlerRunsOf_map_reply]

theorem midRunsOf_invokeCmd (m : CommandModule) :
    midRunsOf (invokeCmd m) = [] := by
  by_cases h : m.onStartThrows <;>
    simp [invokeCmd, h, midRunsOf, List.filterMap_cons, List.filterMap_append,
      midRunsOf_map_reply]

theorem handlerRunsOf_invokeEvt (m : EventModule) :
    handlerRunsOf (invokeEvt m) = [m.id] := by
  by_cases h : m.throws <;>
    simp [invokeEvt, h, handlerRunsOf, List.filterMap_cons, List.filterMap_append,
      handlerRunsOf_map_reply]

theorem evtRunsOf_invokeEvt (m : EventModule) :
    evtRunsOf (invokeEvt m) = [m.id] := by
  by_cases h : m.throws <;>
    simp [invokeEvt, h, evtRunsOf, List.filterMap_cons, List.filterMap_append,
      evtRunsOf_map_reply]

theorem midRunsOf_invokeEvt (m : EventModule) :
    midRunsOf (invokeEvt m) = [] := by
  by_cases h : m.throws <;>
    simp [invokeEvt, h, midRunsOf, List.filterMap_cons, List.filterMap_append,
      midRunsOf_map_reply]

theorem handlerRunsOf_flatTrace_evt (hs : List EventModule) :
    handlerRunsOf (flatTrace invokeEvt hs) = hs.map (fun m => m.id) := by
  induction hs with
  | nil => rfl
  | cons m rest ih =>
    rw [flatTrace, handlerRunsOf_append, handlerRunsOf_invokeEvt, ih]
    rfl

theorem evtRunsOf_flatTrace_evt (hs : List EventModule) :
    evtRunsOf (flatTrace invokeEvt hs) = hs.map (fun m => m.id) := by
  induction hs with
  | nil => rfl
  | cons m rest ih =>
    rw [flatTrace, evtRunsOf_append, evtRunsOf_invokeEvt, ih]
    rfl

theorem midRunsOf_flatTrace_evt (hs : List EventModule) :
    midRunsOf (flatTrace invokeEvt hs) = [] := by
  induction hs with
  | nil => rfl
  | cons m rest ih =>
    rw [flatTrace, midRunsOf_append, midRunsOf_invokeEvt, ih]
    exact List.nil_append []

theorem countAcks_runCbEntry (e : CallbackEntry) :
    countAcks (runCbEntry e) = 1 := by
  obtain ⟨k, i, a, th⟩ := e
  cases a <;> cases th <;> rfl

theorem handlerRunsOf_runCbEntry (e : CallbackEntry) :
    handlerRunsOf (runCbEntry e) = [e.cbId] := by
  obtain ⟨k, i, a, th⟩ := e
  cases a <;> cases th <;> rfl

theorem midRunsOf_runCbEntry (e : CallbackEntry) :
    midRunsOf (runCbEntry e) = [] := by
  obtain ⟨k, i, a, th⟩ := e
  cases a <;> cases th <;> rfl

theorem midRunsOf_routeUpdate (matcher : String → String → Bool)
    (creg : List CommandModule) (ereg : List EventModule) (u : Update) :
    midRunsOf (routeUpdate matcher creg ereg u) = [] := by
  cases u with
  | command kw args ct =>
    rw [routeUpdate]
    cases hr : resolve creg kw with
    | none => rfl
    | some m =>
      by_cases h1 : m.hasOnStart = false
      · simp [h1, midRunsOf]
      · by_cases h2 : m.permission = Permission.group ∧ isGroupChat ct = false
        · simp [h1, h2, midRunsOf]
        · simp [h1, h2, midRunsOf_invokeCmd]
  | event tag ct =>
    rw [routeUpdate]
    exact midRunsOf_flatTrace_evt _
  | callback data =>
    rw [routeUpdate, routeCallback]
    cases hf : (collectActions creg).find? (fun e => matcher e.key data) with
    | none => rfl
    | some e => exact midRunsOf_runCbEntry e

theorem handlerRunsOf_dispatch (matcher : String → String → Bool)
    (stages : List MwStage) (creg : List CommandModule)
    (ereg : List EventModule) (u : Update) :
    handlerRunsOf (dispatch matcher stages creg ereg u) =
      handlerRunsOf (routeUpdate matcher creg ereg u) := by
  rw [dispatch, handlerRunsOf_append, handlerRunsOf_runMw]
  rfl

theorem midRunsOf_dispatch (matcher : String → String → Bool)
    (stages : List MwStage) (creg : List CommandModule)
    (ereg : List EventModule) (u : Update) :
    midRunsOf (dispatch matcher stages creg ereg u) =
      natRange 0 stages.length := by
  rw [dispatch, midRunsOf_append, midRunsOf_runMw, midRunsOf_routeUpdate]
  simp

/-! Helper lemmas about the modelled command registry. -/

theorem foldl_register (ms : List CommandModule) :
    ∀ acc : List CommandModule, ms.foldl register acc = acc ++ ms := by
  induction ms with
  | nil => intro acc; simp
  | cons m rest ih =>
    intro acc
    rw [List.foldl_cons, ih]
    simp [register]

theorem registerAll_eq (ms : List CommandModule) : registerAll ms = ms := by
  rw [registerAll, foldl_register]
  rfl

theorem resolve_eq (r : List CommandModule) (n : String) :
    resolve r n = r.reverse.find? (fun m => m.name == n) := by
  induction r with
  | nil => rfl
  | cons m rest ih =>
    rw [resolve, List.reverse_cons, List.find?_append, ih]
    cases rest.reverse.find? (fun m => m.name == n) with
    | some x => rfl
    | none =>
      by_cases hm : (m.name == n) = true
      · simp [hm, List.find?, Option.or]
      · simp only [Bool.not_eq_true] at hm
        simp [hm, List.find?, Option.or]

theorem stripBotMention_mem {l : List Char} : ∀ c ∈ stripBotMention l, c ∈ l := by
  intro c hc
  cases l with
  | nil => simp [stripBotMention] at hc
  | cons x r2 =>
    rw [stripBotMention] at hc
    by_cases hx : x = '@'
    · rw [if_pos hx] at hc
      by_cases he : (r2.takeWhile isJsWordChar).isEmpty
      · rw [if_pos he] at hc; exact hc
      · rw [if_neg he] at hc
        exact List.mem_cons_of_mem x ((List.drop_sublist _ _).subset hc)
    · rw [if_neg hx] at hc; exact hc

theorem commandRest_mem {l a : List Char} (h : commandRest l = some a) :
    ∀ c ∈ a, c ∈ l := by
  intro c hc
  cases l with
  | nil => simp [commandRest] at h
  | cons x rest =>
    rw [commandRest] at h
    by_cases hx : x = '/'
    · rw [if_pos hx] at h
      by_cases he : (rest.takeWhile isJsWordChar).isEmpty
      · rw [if_pos he] at h; cases h
      · rw [if_neg he] at h
        cases h
        exact List.mem_cons_of_mem x
          ((List.drop_sublist _ _).subset (stripBotMention_mem c hc))
    · rw [if_neg hx] at h; cases h

/-! The ten claims. -/

/-- C1: for every command module whose permission is restricted to group
chats, invoking that command in a private chat produces no handler
invocation and no outbound reply: the router silently ignores it. -/
theorem c1_group_command_private_silent
    (matcher : String → String → Bool) (stages : List MwStage)
    (creg : List CommandModule) (ereg : List EventModule)
    (kw args ct : String) (m : CommandModule)
    (hres : resolve creg kw = some m)
    (hperm : m.permission = Permission.group)
    (hchat : isGroupChat ct = false) :
    handlerRunsOf (dispatch matcher stages creg ereg (Update.command kw args ct)) = [] ∧
      repliesOf (dispatch matcher stages creg ereg (Update.command kw args ct)) = [] := by
  have hroute : routeUpdate matcher creg ereg (Update.command kw args ct) = [] := by
    rw [routeUpdate, hres]
    by_cases h1 : m.hasOnStart = false
    · simp [h1]
    · simp [h1, hperm, hchat]
  constructor
  · rw [handlerRunsOf_dispatch, hroute]
    rfl
  · rw [dispatch, repliesOf_append, repliesOf_runMw, hroute]
    rfl

/-- Witness for C1: the setgroupname module resolved in a private chat,
with the logger middleware registered, produces no handler run and no
reply. -/
theorem c1_group_command_private_silent_witness :
    handlerRunsOf (dispatch litMatcher [loggerStage] [setgroupnameModule] []
        (Update.command "setgroupname" "" "private")) = [] ∧
      repliesOf (dispatch litMatcher [loggerStage] [setgroupnameModule] []
        (Update.command "setgroupname" "" "private")) = [] :=
  c1_group_command_private_silent litMatcher [loggerStage] [setgroupnameModule] []
    "setgroupname" "" "private" setgroupnameModule (by decide) rfl (by decide)

/-- C2: for every inbound update, every registered per-message middleware
stage runs, in registration order, whatever the update is and whatever
stages throw; and the eventual routing of the update is exactly what it
would be without the middleware, so a throwing stage never prevents the
command or event handler from running. -/
theorem c2_middleware_chain_runs (matcher : String → String → Bool)
    (stages : List MwStage) (creg : List CommandModule) (ereg : List EventModule)
    (u : Update) :
    midRunsOf (dispatch matcher stages creg ereg u) = natRange 0 stages.length ∧
      handlerRunsOf (dispatch matcher stages creg ereg u) =
        handlerRunsOf (routeUpdate matcher creg ereg u) :=
  ⟨midRunsOf_dispatch matcher stages creg ereg u,
    handlerRunsOf_dispatch matcher stages creg ereg u⟩

/-- C3: each update is processed at most once: no middleware stage runs
twice, and, when the registered event handler identities are distinct,
no command, event or callback handler is invoked twice, whatever throws
occur. -/
theorem c3_at_most_once (matcher : String → String → Bool)
    (stages : List MwStage) (creg : List CommandModule) (ereg : List EventModule)
    (u : Update)
    (hids : (ereg.map (fun m => m.id)).Nodup) :
    (midRunsOf (dispatch matcher stages creg ereg u)).Nodup ∧
      (handlerRunsOf (dispatch matcher stages creg ereg u)).Nodup := by
  constructor
  · rw [midRunsOf_dispatch]
    exact natRange_nodup stages.length 0
  · rw [handlerRunsOf_dispatch]
    cases u with
    | command kw args ct =>
      rw [routeUpdate]
      cases hr : resolve creg kw with
      | none => simp [handlerRunsOf]
      | some m =>
        by_cases h1 : m.hasOnStart = false
        · simp [h1, handlerRunsOf]
        · by_cases h2 : m.permission = Permission.group ∧ isGroupChat ct = false
          · simp [h1, h2, handlerRunsOf]
          · simp [h1, h2, handlerRunsOf_invokeCmd]
    | event tag ct =>
      rw [routeUpdate, handlerRunsOf_flatTrace_evt]
      have hsub : List.Sublist ((handlersFor ereg tag).map (fun m => m.id))
          (ereg.map (fun m => m.id)) :=
        (List.filter_sublist ereg).map _
      exact List.Nodup.sublist hsub hids
    | callback data =>
      rw [routeUpdate, routeCallback]
      cases hf : (collectActions creg).find? (fun e => matcher e.key data) with
      | none => simp [handlerRunsOf]
      | some e =>
        rw [handlerRunsOf_runCbEntry]
        simp

/-- Witness for C3: a concrete dispatch of a member-join update through
the logger stage and the join and leave modules has duplicate-free
middleware and handler runs. -/
theorem c3_at_most_once_witness :
    (midRunsOf (dispatch litMatcher [loggerStage] [] [joinModule, leaveModule]
        (Update.event "new_chat_members" "group"))).Nodup ∧
      (handlerRunsOf (dispatch litMatcher [loggerStage] [] [joinModule, leaveModule]
        (Update.event "new_chat_members" "group"))).Nodup :=
  c3_at_most_once litMatcher [loggerStage] [] [joinModule, leaveModule]
    (Update.event "new_chat_members" "group") (by decide)

/-- C4: every callback interaction is acknowledged exactly once, whether
the matched handler succeeds, throws, or no registered pattern matches;
the automatic acknowledgment is skipped exactly when the handler already
acknowledged. -/
theorem c4_single_ack (matcher : String → String → Bool) (stages : List MwStage)
    (creg : List CommandModule) (ereg : List EventModule) (data : String) :
    countAcks (dispatch matcher stages creg ereg (Update.callback data)) = 1 := by
  rw [dispatch, countAcks_append, countAcks_runMw, routeUpdate, routeCallback]
  cases hf : (collectActions creg).find? (fun e => matcher e.key data) with
  | none => rfl
  | some e => rw [countAcks_runCbEntry]

/-- C5: registration is last-write-wins: resolving any name after any
registration sequence finds the most recently registered module of that
name, registration itself never fails, and resolve is a function, so
each name maps to at most one module. -/
theorem c5_last_write_wins :
    (∀ (ms : List CommandModule) (n : String),
        resolve (registerAll ms) n = ms.reverse.find? (fun m => m.name == n)) ∧
      (∀ (pre mid post : List CommandModule) (m1 m2 : CommandModule) (n : String),
        m1.name = n → m2.name = n → (∀ m ∈ post, m.name ≠ n) →
          resolve (registerAll (pre ++ m1 :: mid ++ m2 :: post)) n = some m2) := by
  constructor
  · intro ms n
    rw [registerAll_eq, resolve_eq]
  · intro pre mid post m1 m2 n h1 h2 hpost
    rw [registerAll_eq, resolve_eq]
    have hrev : (pre ++ m1 :: mid ++ m2 :: post).reverse =
        post.reverse ++ m2 :: (mid.reverse ++ m1 :: pre.reverse) := by
      simp
    have hpost2 : post.reverse.find? (fun m => m.name == n) = none := by
      rw [List.find?_eq_none]
      intro x hx
      simp only [beq_iff_eq]
      exact hpost x (List.mem_reverse.mp hx)
    rw [hrev, List.find?_append, hpost2]
    simp [List.find?, h2, Option.or]

/-- Witness for C5: the two trans module variants of the sources share
the name trans; after registering both, resolve returns the second. -/
theorem c5_last_write_wins_witness :
    resolve (registerAll [transModuleV1, transModuleV2]) "trans" = some transModuleV2 :=
  c5_last_write_wins.2 [] [] [] transModuleV1 transModuleV2 "trans" rfl rfl
    (by intro m hm; cases hm)

/-- C6 counterexample: the claim states that the argument string equals
the whole trimmed text following the keyword, but on a message whose
arguments span two lines the regex dot stops at the line end, so the
code keeps only the first line. -/
theorem c6_counterexample : ¬ claimC6Holds "/cmd a\nb" := by decide

/-- C6 as amended: for every message text containing no line terminator,
the argument string handed to the handler equals the text following the
command keyword (with optional bot mention) with surrounding whitespace
trimmed, and the empty string for texts not of command shape. -/
theorem c6_args_amended (t : String)
    (h : ∀ c ∈ t.data, isLineTerm c = false) :
    getCommandArgs t = claimC6Spec t := by
  cases hcr : commandRest t.data with
  | none => rw [getCommandArgs, claimC6Spec, hcr]
  | some a =>
    rw [getCommandArgs, claimC6Spec, hcr]
    show String.mk (jsTrim ((a.dropWhile isJsWs).takeWhile (fun c => !(isLineTerm c)))) =
      String.mk (jsTrim a)
    have hnol : ∀ c ∈ a.dropWhile isJsWs, (fun c => !(isLineTerm c)) c = true := by
      intro c hc
      have hca : c ∈ a := (List.dropWhile_sublist _).subset hc
      simp [h c (commandRest_mem hcr c hca)]
    rw [takeWhile_of_all hnol, jsTrim_dropWhileWs]

/-- Witness for C6 as amended: a one-line command message. -/
theorem c6_args_amended_witness :
    getCommandArgs "/trans Hello world | ko" = claimC6Spec "/trans Hello world | ko" :=
  c6_args_amended "/trans Hello world | ko" (by decide)

/-- C7: the permission-aware help listing selects exactly the
subsequence of the command list visible in the chat kind: a group
permission module only in group-like chats, a user permission module
always, in registration order. -/
theorem c7_filter_visibility (cmds : List CommandModule) (ct : String) :
    helpVisibleCommands cmds (isGroupChat ct) = filterFor cmds ct ∧
      List.Sublist (helpVisibleCommands cmds (isGroupChat ct)) cmds := by
  constructor
  · unfold helpVisibleCommands filterFor
    apply List.filter_congr
    intro m _
    cases hm : m.permission <;> rfl
  · exact List.filter_sublist cmds

/-- C8: registering an event module indexes it under every declared tag,
and an event update invokes exactly the handlers subscribed to its tag,
each exactly once, in registration order, with no short-circuit on a
throwing handler. -/
theorem c8_event_fanout :
    (∀ (r : List EventModule) (m : EventModule) (t : String),
        t ∈ m.eventType → m ∈ handlersFor (registerEvent r m) t) ∧
      (∀ (matcher : String → String → Bool) (stages : List MwStage)
          (creg : List CommandModule) (ereg : List EventModule) (tag ct : String),
        evtRunsOf (dispatch matcher stages creg ereg (Update.event tag ct)) =
          (handlersFor ereg tag).map (fun m => m.id)) := by
  constructor
  · intro r m t ht
    rw [handlersFor, registerEvent, List.filter_append]
    apply List.mem_append_of_mem_right
    refine List.mem_filter.mpr ⟨List.mem_singleton_self m, ?_⟩
    exact List.elem_iff.mpr ht
  · intro matcher stages creg ereg tag ct
    rw [dispatch, evtRunsOf_append, evtRunsOf_runMw, routeUpdate,
      evtRunsOf_flatTrace_evt]
    exact List.nil_append _

/-- Witness for C8: the join module is indexed under its declared tag,
and a photo update through two photo modules (the second one throwing)
runs both, in order. -/
theorem c8_event_fanout_witness :
    joinModule ∈ handlersFor (registerEvent [] joinModule) "new_chat_members" ∧
      evtRunsOf (dispatch litMatcher [] [] [photoModuleA, photoModuleB]
        (Update.event "photo" "group")) = [20, 21] :=
  ⟨c8_event_fanout.1 [] joinModule "new_chat_members" (by decide),
    (c8_event_fanout.2 litMatcher [] [] [photoModuleA, photoModuleB] "photo"
      "group").trans (by decide)⟩

/-- C9 counterexample: the claimed iff fails at the input constructor:
the lowercased input is not a key of the table, yet the `in` operator
finds the property inherited from `Object.prototype`, so the source
accepts it.  The input is reachable: it matches the language group
`\w+` of the pipe pattern. -/
theorem c9_counterexample : ¬ claimC9Holds "constructor" := by decide

/-- C9 as amended: for every ASCII input string, the code is accepted
exactly when its lowercasing is an own key of the table or a property
name inherited from `Object.prototype`; the keys zh-CN and zh-TW are in
the table, yet every input whose lowercasing is zh-cn or zh-tw is
rejected, because lowercasing never produces those mixed-case keys and
they are not inherited names either. -/
theorem c9_language_validation_amended :
    (∀ l : String, (∀ c ∈ l.data, c.toNat < 128) →
        (isValidLanguage l = true ↔
          (∃ p ∈ SUPPORTED_LANGUAGES, p.1 = jsToLowerCase l) ∨
            jsToLowerCase l ∈ OBJECT_PROTOTYPE_KEYS)) ∧
      ((∃ p ∈ SUPPORTED_LANGUAGES, p.1 = "zh-CN") ∧
        (∃ p ∈ SUPPORTED_LANGUAGES, p.1 = "zh-TW")) ∧
      (∀ l : String, (∀ c ∈ l.data, c.toNat < 128) →
        jsToLowerCase l = "zh-cn" ∨ jsToLowerCase l = "zh-tw" →
          isValidLanguage l = false) := by
  refine ⟨?_, ⟨?_, ?_⟩, ?_⟩
  · intro l _
    rw [isValidLanguage, Bool.or_eq_true]
    constructor
    · intro h
      cases h with
      | inl h =>
        obtain ⟨p, hp, hpe⟩ := List.mem_map.mp (List.elem_iff.mp h)
        exact Or.inl ⟨p, hp, hpe⟩
      | inr h => exact Or.inr (List.elem_iff.mp h)
    · intro h
      cases h with
      | inl h =>
        obtain ⟨p, hp, hpe⟩ := h
        exact Or.inl (List.elem_iff.mpr (List.mem_map.mpr ⟨p, hp, hpe⟩))
      | inr h => exact Or.inr (List.elem_iff.mpr h)
  · exact ⟨("zh-CN", "Chinese (Simplified)"), by decide, rfl⟩
  · exact ⟨("zh-TW", "Chinese (Traditional)"), by decide, rfl⟩
  · intro l _ h
    cases h with
    | inl h => rw [isValidLanguage, h]; decide
    | inr h => rw [isValidLanguage, h]; decide

/-- Witness for C9 as amended: the inherited name is accepted per the
amended rule, and a mixed-case casing of zh-CN is rejected. -/
theorem c9_language_validation_amended_witness :
    (isValidLanguage "constructor" = true ↔
        (∃ p ∈ SUPPORTED_LANGUAGES, p.1 = jsToLowerCase "constructor") ∨
          jsToLowerCase "constructor" ∈ OBJECT_PROTOTYPE_KEYS) ∧
      isValidLanguage "zh-CN" = false :=
  ⟨c9_language_validation_amended.1 "constructor" (by decide),
    c9_language_validation_amended.2.2 "zh-CN" (by decide) (Or.inl (by decide))⟩

/-- C10 counterexample: the claim characterization fails on a pipe-form
argument whose prefix holds a line terminator: the regex dot cannot
match it, so the code falls back to the default branch. -/
theorem c10_counterexample : ¬ claimC10Holds "a\nb | ko" := by decide

/-- C10 as amended: parseTransArgs and parseSayArgs compute the same
function, and on every argument string containing no line terminator
that function satisfies the claimed pipe characterization. -/
theorem c10_parse_equiv_amended (s : String) :
    parseTransArgs s = parseSayArgs s ∧
      ((∀ c ∈ s.data, isLineTerm c = false) → claimC10Holds s) := by
  constructor
  · rfl
  · intro h
    have key : parseTransArgs s = claimC10Spec s := by
      cases hsp : splitLastPipe s.data with
      | none =>
        have e1 : matchPipeRegex s.data = none := by
          rw [matchPipeRegex, hsp]
        have e2 : specPipeSplit s.data = none := by
          rw [specPipeSplit, hsp]
        rw [parseTransArgs, claimC10Spec, e1, e2]
      | some pp =>
        obtain ⟨pre, post⟩ := pp
        cases hpt : pipeTail post with
        | none =>
          have e1 : matchPipeRegex s.data = none := by
            rw [matchPipeRegex, hsp]
            show (match pipeTail post with
              | none => none
              | some word =>
                if (dropTrailWs pre).all (fun c => !(isLineTerm c))
                then some (dropTrailWs pre, word)
                else none) = none
            rw [hpt]
          have e2 : specPipeSplit s.data = none := by
            rw [specPipeSplit, hsp]
            show (match pipeTail post with
              | none => none
              | some word => some (jsTrim pre, word)) = none
            rw [hpt]
          rw [parseTransArgs, claimC10Spec, e1, e2]
        | some word =>
          have hl : s.data = pre ++ '|' :: post := splitLastPipe_eq _ _ _ hsp
          have hg : (dropTrailWs pre).all (fun c => !(isLineTerm c)) = true := by
            rw [List.all_eq_true]
            intro c hc
            have hcpre : c ∈ pre := mem_dropTrailWs hc
            have hcs : c ∈ s.data := by
              rw [hl]
              exact List.mem_append_left _ hcpre
            simp [h c hcs]
          have hw : jsTrim word = word :=
            jsTrim_of_noWs fun a ha => wordChar_not_ws (pipeTail_word hpt a ha)
          have e1 : matchPipeRegex s.data = some (dropTrailWs pre, word) := by
            rw [matchPipeRegex, hsp]
            show (match pipeTail post with
              | none => none
              | some word =>
                if (dropTrailWs pre).all (fun c => !(isLineTerm c))
                then some (dropTrailWs pre, word)
                else none) = some (dropTrailWs pre, word)
            rw [hpt]
            show (if (dropTrailWs pre).all (fun c => !(isLineTerm c))
              then some (dropTrailWs pre, word)
              else none) = some (dropTrailWs pre, word)
            rw [if_pos hg]
          have e2 : specPipeSplit s.data = some (jsTrim pre, word) := by
            rw [specPipeSplit, hsp]
            show (match pipeTail post with
              | none => none
              | some word => some (jsTrim pre, word)) = some (jsTrim pre, word)
            rw [hpt]
          rw [parseTransArgs, claimC10Spec, e1, e2]
          simp [hw, jsTrim_dropTrailWs]
    exact ⟨key, key⟩

/-- Witness for C10 as amended: a line-terminator-free pipe argument. -/
theorem c10_parse_equiv_amended_witness :
    parseTransArgs "Hello world | ko" = parseSayArgs "Hello world | ko" ∧
      claimC10Holds "Hello world | ko" :=
  ⟨(c10_parse_equiv_amended "Hello world | ko").1,
    (c10_parse_equiv_amended "Hello world | ko").2 (by decide)⟩

end TeleBot
